import Mathlib

/-
Verification of the qcparse/qccodec decoding pipeline.

Shallow embedding, translated from the repository sources:
  * `DataCollector.add_data`      from src/src/qccodec/models.py
  * `ParserSpec`, `ParserRegistry`, `register`, `get_parsers`,
    `supported_programs`, `supported_filetypes`
                                  from src/qcparse/registry.py
  * `iter_files`                  from src/src/qccodec/parsers/crest.py
  * `decode`                      from src/src/qccodec/codec.py

Python dictionaries are modelled as insertion-ordered association lists;
Python exceptions are modelled with `Except`; the opaque domain values
produced by extraction functions are modelled by the `Value` type.
-/

namespace Qccodec

/-- A value stored in a `DataCollector`: either an opaque scalar payload
(floats, strings, arrays ... are irrelevant to the control flow, so they are
collapsed into an opaque `Nat` tag) or a nested Python dictionary, modelled
as an insertion-ordered association list. -/
inductive Value where
  | leaf : Nat → Value
  | dict : List (String × Value) → Value

/-- The `DataCollector` of models.py is a Python `dict`; we model it by the
association list backing its top-level dictionary. -/
abbrev DataCollector := List (String × Value)

/-- First-match lookup in an insertion-ordered association list: Python
`d[k]` / `k in d` semantics for dictionaries (keys are unique in a real
Python dict, so first match is the match). -/
def lookupA {β : Type} : List (String × β) → String → Option β
  | [], _ => none
  | (k₀, v₀) :: rest, k => if k₀ = k then some v₀ else lookupA rest k

/-- Python `d[k] = v` on a dict: update in place when the key is present,
append at the end (insertion order) when it is not. -/
def setV : List (String × Value) → String → Value → List (String × Value)
  | [], k, v => [(k, v)]
  | (k₀, v₀) :: rest, k, v =>
      if k₀ = k then (k₀, v) :: rest else (k₀, v₀) :: setV rest k v

/-- Errors that `DataCollector.add_data` can raise.
`conflict` is the `DataCollectorError` of models.py (duplicate target);
`typeError` models the Python `AttributeError`/`TypeError` raised when the
walk runs into a non-dict intermediate value; `emptyTarget` models the
`IndexError` of `keys[-1]` on an empty tuple. -/
inductive DCError where
  | conflict
  | typeError
  | emptyTarget
deriving DecidableEq

/-- `DataCollector.add_data` from models.py.

```python
keys = target if isinstance(target, tuple) else (target,)
d = self
for key in keys[:-1]:
    d = d.setdefault(key, {})
if keys[-1] in d:
    raise DataCollectorError(...)
d[keys[-1]] = value
```

A string target is the singleton path `[k]`.  `setdefault(key, {})` either
returns the existing entry (an error surfaces later if it is not a dict) or
inserts a fresh empty dict; walking into a fresh dict can never fail, so the
fresh-suffix part of the walk is modelled by recursing on `[]`.  Python
mutates nothing before the point of failure (dicts are only created along a
fresh suffix, where no failure can occur), so returning `Except` with no
partial state is faithful. -/
def add_data : List (String × Value) → List String → Value →
    Except DCError (List (String × Value))
  | _, [], _ => .error .emptyTarget
  | d, [k], v =>
      match lookupA d k with
      | some _ => .error .conflict
      | none => .ok (d ++ [(k, v)])
  | d, k :: k₂ :: ks, v =>
      match lookupA d k with
      | some (.dict sub) =>
          (add_data sub (k₂ :: ks) v).map (fun sub₂ => setV d k (.dict sub₂))
      | some (.leaf _) => .error .typeError
      | none =>
          (add_data [] (k₂ :: ks) v).map (fun sub₂ => d ++ [(k, .dict sub₂)])

/-- Read the value stored at a dotted path: navigates nested dicts the same
way `add_data` does.  Used to state what a collector holds. -/
def Value.getPath : Value → List String → Option Value
  | v, [] => some v
  | .dict d, k :: ks =>
      match lookupA d k with
      | some v => v.getPath ks
      | none => none
  | .leaf _, _ :: _ => none

/-- The nested-dict chain that `add_data` builds along a completely fresh
path. -/
def chain : List String → Value → List (String × Value)
  | [], _ => []
  | [k], v => [(k, v)]
  | k :: k₂ :: ks, v => [(k, .dict (chain (k₂ :: ks) v))]

/-- `p` is a (not necessarily proper) leading segment of `q`. -/
def Pref (p q : List String) : Prop := ∃ t, p ++ t = q

theorem lookupA_append {β : Type} (d e : List (String × β)) (k : String) :
    lookupA (d ++ e) k =
      match lookupA d k with
      | some v => some v
      | none => lookupA e k := by
  induction d with
  | nil => simp [lookupA]
  | cons hd tl ih =>
      obtain ⟨k₀, v₀⟩ := hd
      by_cases h : k₀ = k <;> simp [lookupA, h, ih]

theorem lookupA_append_none {β : Type} {d : List (String × β)}
    {e : List (String × β)} {k : String} (h : lookupA d k = none) :
    lookupA (d ++ e) k = lookupA e k := by
  rw [lookupA_append, h]

theorem lookupA_append_some {β : Type} {d : List (String × β)}
    {e : List (String × β)} {k : String} {v : β} (h : lookupA d k = some v) :
    lookupA (d ++ e) k = some v := by
  rw [lookupA_append, h]

theorem lookupA_setV_self (d : List (String × Value)) (k : String) (v : Value) :
    lookupA (setV d k v) k = some v := by
  induction d with
  | nil => simp [setV, lookupA]
  | cons hd tl ih =>
      obtain ⟨k₀, v₀⟩ := hd
      by_cases h : k₀ = k <;> simp [setV, lookupA, h, ih]

theorem lookupA_setV_ne (d : List (String × Value)) (k k₂ : String) (v : Value)
    (h : k₂ ≠ k) : lookupA (setV d k v) k₂ = lookupA d k₂ := by
  induction d with
  | nil =>
      simp only [setV, lookupA]
      rw [if_neg (fun hh => h hh.symm)]
  | cons hd tl ih =>
      obtain ⟨k₀, v₀⟩ := hd
      by_cases h₀ : k₀ = k
      · subst h₀
        simp [setV, lookupA, show ¬k₀ = k₂ from fun hh => h hh.symm]
      · by_cases h₂ : k₀ = k₂
        · subst h₂
          simp [setV, lookupA, h₀]
        · simp [setV, lookupA, h₀, h₂, ih]

/-- The calculation types of the external qcio `CalcType` enumeration that
the pipeline dispatches on (the keys of `RESULTS_TYPE_MAP` in codec.py).
An opaque comparable tag as far as the decoding core is concerned. -/
inductive CalcType where
  | energy
  | gradient
  | hessian
  | optimization
  | transition_state
  | conformer_search
deriving DecidableEq

/-- `list(CalcType)`: every member of the enumeration, in declaration
order.  Used by the `register` decorator when `calctypes is None`. -/
def allCalcTypes : List CalcType :=
  [.energy, .gradient, .hessian, .optimization, .transition_state,
   .conformer_search]

theorem mem_allCalcTypes (ct : CalcType) : ct ∈ allCalcTypes := by
  cases ct <;> simp [allCalcTypes]

/-- `CrestFileType` from parsers/crest.py: the per-program closed variant
set of file kinds. -/
inductive FileType where
  | stdout
  | directory
  | numhess
  | g98
  | engrad
  | optlog
deriving DecidableEq

/-- The `.value` of each enum member: its file name as written in the CREST
output directory (except for STDOUT and DIRECTORY). -/
def FileType.value : FileType → String
  | .stdout => "stdout"
  | .directory => "directory"
  | .numhess => "numhess1"
  | .g98 => "g98.out"
  | .engrad => "crest.engrad"
  | .optlog => "crestopt.log"

/-- A parser target as Python sees it: `Union[str, tuple[str, ...]]`.
A plain string and the one-element tuple are distinct Python values, so the
distinction is kept for the registry's target-equality check. -/
inductive Target where
  | str : String → Target
  | tup : List String → Target
deriving DecidableEq

/-- The key path `add_data` walks for a target: a string target is the
singleton path. -/
def Target.keys : Target → List String
  | .str s => [s]
  | .tup l => l

/-- The exceptions an extraction function can raise: `MatchNotFoundError`
(caught by `decode`) or any other parser-level error such as `ParserError`
(propagated uncaught). -/
inductive PErr where
  | matchNotFound
  | parserError
deriving DecidableEq

/-- A snapshot of the calculation output directory passed to `decode` and
`iter_files`: whether the path exists and is a directory, and the named
files it holds with their text contents.  A real directory has no duplicate
names; order in the listing carries no meaning, which claim C4 makes
precise. -/
structure DirSnapshot where
  dirExists : Bool
  isDir : Bool
  files : List (String × String)

/-- What one `(filetype, contents)` pair yielded by `iter_files` carries:
the text of stdout or of an auxiliary file, or the directory path itself
(for the DIRECTORY marker entry). -/
inductive Content where
  | text : String → Content
  | dirPath : Content

/-- The argument shapes with which `decode` invokes a registered parser:
plain file contents for scalar parsers, or
`(directory, stdout, input_data)` for directory parsers, the structured
input object being opaque. -/
inductive CallArgs where
  | scalar : Content → CallArgs
  | dirArgs : Option DirSnapshot → Option String → Option Nat → CallArgs

/-- `ParserSpec` from registry.py.  The parser callable is modelled as a
function from the call arguments `decode` passes to an `Except` result;
the structured `input_data` object is opaque (`Option Nat`). -/
structure ParserSpec where
  parser : CallArgs → Except PErr Value
  filetype : FileType
  required : Bool
  calctypes : List CalcType
  program : String
  target : Option Target

/-- `RegistryError` raise sites in registry.py, told apart by message:
duplicate target registration, no parsers registered for a program, and the
`__post_init__` validation failures of `ParserSpec`. -/
inductive RegistryError where
  | registryConflict
  | noParsers
  | badSpec
deriving DecidableEq

/-- `ParserRegistry` from registry.py: a `defaultdict(list)` keyed by
program name, modelled as an insertion-ordered association list. -/
structure ParserRegistry where
  registry : List (String × List ParserSpec)

/-- `defaultdict` insert-or-append: `self.registry[p].append(s)` creates the
empty list for a missing key, then appends. -/
def setAppend (r : List (String × List ParserSpec)) (p : String)
    (s : ParserSpec) : List (String × List ParserSpec) :=
  match r with
  | [] => [(p, [s])]
  | (q, l) :: rest =>
      if q = p then (q, l ++ [s]) :: rest else (q, l) :: setAppend rest p s

/-- The conflict test of `ParserRegistry.register`: the new spec has a
target (it is not a directory parser), an already-registered spec for the
same program has an equal target, and the two calc-type sets intersect. -/
def conflictsWith (parser_spec registered_spec : ParserSpec) : Bool :=
  parser_spec.target.isSome
    && decide (registered_spec.target = parser_spec.target)
    && parser_spec.calctypes.any (fun ct => decide (ct ∈ registered_spec.calctypes))

/-- `ParserRegistry.register`: raise `RegistryError` if any spec already
registered for the same program conflicts, otherwise append the spec to the
program's list.  The Python loop raises at the first conflicting spec; only
whether some spec conflicts is observable. -/
def ParserRegistry.register (reg : ParserRegistry) (parser_spec : ParserSpec) :
    Except RegistryError ParserRegistry :=
  if ((lookupA reg.registry parser_spec.program).getD []).any
      (conflictsWith parser_spec)
  then .error .registryConflict
  else .ok ⟨setAppend reg.registry parser_spec.program parser_spec⟩

/-- `ParserRegistry.get_parsers`.  `self.registry[program]` is a
`defaultdict` access: when the program has no entry it INSERTS an empty
list before the emptiness test raises `RegistryError`; the possibly-updated
registry state is returned alongside the result.  The optional filetype and
calctype filters are applied in order (enum members are always truthy in
Python, so a passed filter is an applied filter). -/
def ParserRegistry.get_parsers (reg : ParserRegistry) (program : String)
    (filetype : Option FileType) (calctype : Option CalcType) :
    Except RegistryError (List ParserSpec) × ParserRegistry :=
  match lookupA reg.registry program with
  | none => (.error .noParsers, ⟨reg.registry ++ [(program, [])]⟩)
  | some l =>
      if l.isEmpty then (.error .noParsers, reg)
      else
        let l₁ := match filetype with
          | some ft => l.filter (fun ps => decide (ps.filetype = ft))
          | none => l
        let l₂ := match calctype with
          | some ct => l₁.filter (fun ps => decide (ct ∈ ps.calctypes))
          | none => l₁
        (.ok l₂, reg)

/-- `ParserRegistry.supported_programs`: `list(self.registry.keys())`.
A plain read of the keys; performs no `defaultdict` access. -/
def ParserRegistry.supported_programs (reg : ParserRegistry) : List String :=
  reg.registry.map Prod.fst

/-- `ParserRegistry.supported_filetypes`: calls `get_parsers(program)` (so
it inherits its `defaultdict` behaviour and possible `RegistryError`), then
collapses the filetype values to a set; the set is modelled as a
first-occurrence dedup. -/
def ParserRegistry.supported_filetypes (reg : ParserRegistry)
    (program : String) : Except RegistryError (List String) × ParserRegistry :=
  match reg.get_parsers program none none with
  | (.error e, reg₂) => (.error e, reg₂)
  | (.ok l, reg₂) => (.ok ((l.map (fun ps => ps.filetype.value)).dedup), reg₂)

/-- `ParserSpec.__post_init__`: a non-directory spec must have a target
(the callable check always passes in the embedding, and every modelled
target is a string or tuple). -/
def mkParserSpec (parser : CallArgs → Except PErr Value) (filetype : FileType)
    (required : Bool) (calctypes : List CalcType) (program : String)
    (target : Option Target) : Except RegistryError ParserSpec :=
  if target = none ∧ filetype ≠ .directory then .error .badSpec
  else .ok ⟨parser, filetype, required, calctypes, program, target⟩

/-- The module-level `register` decorator of registry.py: builds a
`ParserSpec` for the decorated function (the program name comes from the
defining module) and registers it in the registry.  `calctypes=None`
defaults to `list(CalcType)`; `required` defaults to `True`; `target`
defaults to `None`. -/
def registerFun (filetype : FileType) (calctypes : Option (List CalcType))
    (required : Bool) (target : Option Target) (program : String)
    (parser : CallArgs → Except PErr Value) (reg : ParserRegistry) :
    Except RegistryError ParserRegistry := do
  let spec ← mkParserSpec parser filetype required
    (calctypes.getD allCalcTypes) program target
  reg.register spec

/-- What consuming the `iter_files` generator to exhaustion produces: the
entries it yielded, and whether it raised `ParserError` after yielding them
(the directory-validity check sits after the stdout yield, so a consumer
sees the stdout entry before the error surfaces). -/
structure IterResult where
  entries : List (FileType × Content)
  errAfter : Bool

/-- The auxiliary file kinds probed by the crest `iter_files`, in enum
declaration order (`for filetype in CrestFileType`, skipping STDOUT and
DIRECTORY).  This fixed order, not the directory-listing order, dictates
the yield order. -/
def crestAuxOrder : List FileType :=
  [.numhess, .g98, .engrad, .optlog]

/-- `iter_files` from parsers/crest.py:

```python
if stdout is not None:
    yield CrestFileType.STDOUT, stdout
if directory is not None:
    if not directory.exists() or not directory.is_dir():
        raise ParserError(...)
    yield CrestFileType.DIRECTORY, directory
    for filetype in CrestFileType:
        if filetype not in (STDOUT, DIRECTORY):
            file_path = directory / filetype.value
            if file_path.exists():
                yield filetype, file_path.read_text()
```
-/
def iter_files (stdout : Option String) (directory : Option DirSnapshot) :
    IterResult :=
  let base : List (FileType × Content) :=
    match stdout with
    | some s => [(.stdout, .text s)]
    | none => []
  match directory with
  | none => ⟨base, false⟩
  | some d =>
      if !d.dirExists || !d.isDir then ⟨base, true⟩
      else
        ⟨base ++ (FileType.directory, Content.dirPath) ::
          crestAuxOrder.filterMap (fun ft =>
            (lookupA d.files ft.value).map (fun t => (ft, Content.text t))),
         false⟩

/-- The errors a `decode` call can surface, one constructor per raise site:
`valueError` (neither stdout nor directory), `decoderError` (the program
module import failed), `structureError` (`ParserError` from `iter_files`
on a bad directory), a propagated `RegistryError` from `get_parsers`,
`matchNotFound` (required parser failed), a `DataCollectorError` from
`add_data`, the mypy assertion on a scalar parser without target, and any
non-match exception a parser raises. -/
inductive DecodeErr where
  | valueError
  | decoderError
  | structureError
  | registryError (e : RegistryError)
  | matchNotFound
  | collectorError (e : DCError)
  | assertionError
  | parserRaised
deriving DecidableEq

/-- The per-call context a parser invocation sees: the contents of the
classified file at hand, plus the decode-level directory, stdout and
structured input. -/
structure Ctx where
  contents : Content
  directory : Option DirSnapshot
  stdout : Option String
  input_data : Option Nat

/-- How `decode` calls one parser: directory parsers get
`(directory, stdout, input_data)`, every other parser gets the file
contents. -/
def invoke (spec : ParserSpec) (ctx : Ctx) : Except PErr Value :=
  if spec.filetype = .directory then
    spec.parser (.dirArgs ctx.directory ctx.stdout ctx.input_data)
  else
    spec.parser (.scalar ctx.contents)

/-- The mapping branch of `decode`: a parser that returned a dict has each
`(key, value)` item assigned to the collector by an independent
`add_data(key, value)` call, in item order. -/
def addEntries : List (String × Value) → DataCollector →
    Except DecodeErr DataCollector
  | [], dc => .ok dc
  | (k, v) :: rest, dc =>
      match add_data dc [k] v with
      | .error e => .error (.collectorError e)
      | .ok dc₂ => addEntries rest dc₂

/-- Routing one successfully parsed value into the collector: a dict is
split into per-item `add_data` calls; anything else is written at the
spec's own target (asserted non-None for non-dict values). -/
def storeParsed (dc : DataCollector) (spec : ParserSpec) :
    Value → Except DecodeErr DataCollector
  | .dict m => addEntries m dc
  | v =>
      match spec.target with
      | none => .error .assertionError
      | some t =>
          match add_data dc t.keys v with
          | .error e => .error (.collectorError e)
          | .ok dc₂ => .ok dc₂

/-- Running one applicable spec inside `decode`: invoke the parser; on
`MatchNotFoundError` re-raise when the spec is required and skip silently
otherwise; on success route the value into the collector. -/
def runSpec (dc : DataCollector) (spec : ParserSpec) (ctx : Ctx) :
    Except DecodeErr DataCollector :=
  match invoke spec ctx with
  | .error .matchNotFound =>
      if spec.required then .error .matchNotFound else .ok dc
  | .error .parserError => .error .parserRaised
  | .ok v => storeParsed dc spec v

/-- The inner loop of `decode`: run each applicable spec in registration
order, threading the collector. -/
def runSpecs : List ParserSpec → DataCollector → Ctx →
    Except DecodeErr DataCollector
  | [], dc, _ => .ok dc
  | spec :: rest, dc, ctx =>
      match runSpec dc spec ctx with
      | .error e => .error e
      | .ok dc₂ => runSpecs rest dc₂ ctx

/-- The outer loop of `decode`: for each yielded `(filetype, contents)`
pair look up the applicable specs (threading the registry state, since the
`defaultdict` lookup can mutate it) and run them. -/
def processEntries (program : String) (calctype : CalcType)
    (directory : Option DirSnapshot) (stdout : Option String)
    (input_data : Option Nat) :
    List (FileType × Content) → DataCollector → ParserRegistry →
    Except DecodeErr (DataCollector × ParserRegistry)
  | [], dc, reg => .ok (dc, reg)
  | (ft, contents) :: rest, dc, reg =>
      match reg.get_parsers program (some ft) (some calctype) with
      | (.error e, _) => .error (.registryError e)
      | (.ok specs, reg₂) =>
          match runSpecs specs dc ⟨contents, directory, stdout, input_data⟩ with
          | .error e => .error e
          | .ok dc₂ =>
              processEntries program calctype directory stdout input_data
                rest dc₂ reg₂

/-- What a successful `decode` returns: the raw collected mapping when
`as_dict` is set, otherwise the typed `StructuredResults` object built by
`RESULTS_TYPE_MAP[calctype](**data_collector)` — an external qcio
constructor, opaque at this boundary, so it is modelled by the calctype tag
together with the data handed to it. -/
inductive DecodeResult where
  | raw : DataCollector → DecodeResult
  | typed : CalcType → DataCollector → DecodeResult

/-- Python truthiness of the optional stdout string: `not stdout` is true
for both `None` and the empty string. -/
def truthyS (stdout : Option String) : Bool :=
  match stdout with
  | some s => !s.isEmpty
  | none => false

/-- `decode` from codec.py.  The dynamic
`import_module(f"qccodec.parsers.{program}")` is modelled by an optional
classifier argument: `none` is a failed import (`DecoderError`), `some f`
is the program module's `iter_files`.  The guard, the iteration over
classified files, the registry lookups, the required/optional handling and
the final materialization follow the source line by line; the generator's
deferred `ParserError` is checked after the yielded entries have been
processed, exactly where the `for` loop would hit it. -/
def decode (classifier : Option (Option String → Option DirSnapshot → IterResult))
    (reg : ParserRegistry) (program : String) (calctype : CalcType)
    (stdout : Option String) (directory : Option DirSnapshot)
    (input_data : Option Nat) (as_dict : Bool) : Except DecodeErr DecodeResult :=
  if !truthyS stdout && !directory.isSome then .error .valueError
  else
    match classifier with
    | none => .error .decoderError
    | some iterF =>
        let it := iterF stdout directory
        match processEntries program calctype directory stdout input_data
            it.entries [] reg with
        | .error e => .error e
        | .ok (dc, _) =>
            if it.errAfter then .error .structureError
            else if as_dict then .ok (.raw dc) else .ok (.typed calctype dc)

theorem lookupA_singleton_self (k : String) (v : Value) :
    lookupA [(k, v)] k = some v := by
  simp [lookupA]

/-- Walking a completely fresh path appends the nested chain. -/
theorem add_data_nil_fresh (k : String) (p : List String) (v : Value) :
    add_data [] (k :: p) v = .ok (chain (k :: p) v) := by
  induction p generalizing k with
  | nil => simp [add_data, lookupA, chain]
  | cons k₂ ks ih => simp [add_data, lookupA, chain, ih k₂, Except.map]

/-- Adding at a path whose first segment is absent from the collector
appends a fresh chain and cannot fail. -/
theorem add_data_fresh (d : List (String × Value)) (k : String)
    (p : List String) (v : Value) (h : lookupA d k = none) :
    add_data d (k :: p) v = .ok (d ++ chain (k :: p) v) := by
  cases p with
  | nil => simp [add_data, h, chain]
  | cons k₂ ks =>
      simp [add_data, h, add_data_nil_fresh k₂ ks v, Except.map, chain]

/-- A successful `add_data` leaves the written value readable at its path,
and a second `add_data` at the very same path raises the conflict error. -/
theorem add_data_twice (p : List String) (d d₁ : List (String × Value))
    (v₁ v₂ : Value) (h : add_data d p v₁ = .ok d₁) :
    add_data d₁ p v₂ = .error .conflict ∧
      Value.getPath (.dict d₁) p = some v₁ := by
  induction p generalizing d d₁ with
  | nil => simp [add_data] at h
  | cons k rest ih =>
      cases rest with
      | nil =>
          cases hl : lookupA d k with
          | some w => simp [add_data, hl] at h
          | none =>
              simp only [add_data, hl] at h
              obtain rfl : d ++ [(k, v₁)] = d₁ := by
                cases h; rfl
              have hk : lookupA (d ++ [(k, v₁)]) k = some v₁ :=
                (lookupA_append_none hl).trans (lookupA_singleton_self k v₁)
              constructor
              · simp [add_data, hk]
              · simp [Value.getPath, hk]
      | cons k₂ ks =>
          cases hl : lookupA d k with
          | some w =>
              cases w with
              | leaf n => simp [add_data, hl] at h
              | dict sub =>
                  simp only [add_data, hl] at h
                  cases hsub : add_data sub (k₂ :: ks) v₁ with
                  | error e => rw [hsub] at h; simp [Except.map] at h
                  | ok sub₁ =>
                      rw [hsub] at h
                      simp only [Except.map] at h
                      obtain rfl : setV d k (.dict sub₁) = d₁ := by
                        cases h; rfl
                      have hk : lookupA (setV d k (.dict sub₁)) k =
                          some (.dict sub₁) := lookupA_setV_self d k _
                      obtain ⟨ih₁, ih₂⟩ := ih sub sub₁ hsub
                      constructor
                      · simp [add_data, hk, ih₁, Except.map]
                      · simp [Value.getPath, hk]
                        exact ih₂
          | none =>
              simp only [add_data, hl] at h
              cases hsub : add_data [] (k₂ :: ks) v₁ with
              | error e => rw [hsub] at h; simp [Except.map] at h
              | ok sub₁ =>
                  rw [hsub] at h
                  simp only [Except.map] at h
                  obtain rfl : d ++ [(k, Value.dict sub₁)] = d₁ := by
                    cases h; rfl
                  have hk : lookupA (d ++ [(k, Value.dict sub₁)]) k =
                      some (.dict sub₁) :=
                    (lookupA_append_none hl).trans (lookupA_singleton_self k _)
                  obtain ⟨ih₁, ih₂⟩ := ih [] sub₁ hsub
                  constructor
                  · simp [add_data, hk, ih₁, Except.map]
                  · simp [Value.getPath, hk]
                    exact ih₂

/-- Two paths that diverge (neither is a leading segment of the other) can
both be written: adding the second into the chain created by the first
succeeds. -/
theorem add_data_chain_div (v₁ v₂ : Value) (p q : List String)
    (hpq : ¬Pref p q) (hqp : ¬Pref q p) :
    ∃ d₂, add_data (chain p v₁) q v₂ = .ok d₂ := by
  induction p generalizing q with
  | nil => exact absurd ⟨q, rfl⟩ hpq
  | cons k p₂ ih =>
      cases q with
      | nil => exact absurd ⟨k :: p₂, rfl⟩ hqp
      | cons y q₂ =>
          by_cases hky : y = k
          · subst hky
            cases p₂ with
            | nil => exact absurd ⟨q₂, rfl⟩ hpq
            | cons a as =>
                cases q₂ with
                | nil => exact absurd ⟨a :: as, rfl⟩ hqp
                | cons b bs =>
                    have hpq₂ : ¬Pref (a :: as) (b :: bs) := by
                      rintro ⟨t, ht⟩
                      exact hpq ⟨t, by simp [ht]⟩
                    have hqp₂ : ¬Pref (b :: bs) (a :: as) := by
                      rintro ⟨t, ht⟩
                      exact hqp ⟨t, by simp [ht]⟩
                    obtain ⟨d₂, hd₂⟩ := ih (b :: bs) hpq₂ hqp₂
                    refine ⟨setV (chain (y :: a :: as) v₁) y (.dict d₂), ?_⟩
                    simp [chain, add_data, lookupA, hd₂, Except.map]
          · have hky₂ : ¬k = y := fun h => hky h.symm
            cases p₂ with
            | nil =>
                refine ⟨chain [k] v₁ ++ chain (y :: q₂) v₂, ?_⟩
                exact add_data_fresh _ y q₂ v₂ (by simp [chain, lookupA, hky₂])
            | cons a as =>
                refine ⟨chain (k :: a :: as) v₁ ++ chain (y :: q₂) v₂, ?_⟩
                exact add_data_fresh _ y q₂ v₂ (by simp [chain, lookupA, hky₂])

/-- C1, counterexample.  The paths `("a", "b")` and `("a",)` are distinct
(they are not even siblings), the first `add_data` succeeds, yet the second
raises the `DataCollectorError` conflict because the final segment `"a"`
already holds the intermediate dictionary created by the first write — so
two `add_data` calls to distinct fully-qualified paths do not always both
succeed. -/
theorem C1_counterexample :
    add_data [] ["a", "b"] (.leaf 0) = .ok [("a", .dict [("b", .leaf 0)])] ∧
      add_data [("a", .dict [("b", .leaf 0)])] ["a"] (.leaf 1) =
        .error .conflict := by
  constructor <;> rfl

/-- C1 (amended): for every `DataCollector` and fully-qualified target
path, the second `add_data` call to the same path raises the Conflict
error (`DataCollectorError`) and the first stored value is kept (it is
still what the path reads back, the failed call returning no new state);
and two `add_data` calls on a fresh collector to two distinct paths of
which neither is a leading segment of the other — including sibling paths
that share a nested prefix — both succeed without error. -/
theorem C1_theorem :
    (∀ (p : List String) (d d₁ : List (String × Value)) (v₁ v₂ : Value),
        add_data d p v₁ = .ok d₁ →
        add_data d₁ p v₂ = .error .conflict ∧
          Value.getPath (.dict d₁) p = some v₁) ∧
    (∀ (p q : List String) (v₁ v₂ : Value) (d₁ : List (String × Value)),
        ¬Pref p q → ¬Pref q p → add_data [] p v₁ = .ok d₁ →
        ∃ d₂, add_data d₁ q v₂ = .ok d₂) := by
  constructor
  · exact add_data_twice
  · intro p q v₁ v₂ d₁ hpq hqp h
    cases p with
    | nil => simp [add_data] at h
    | cons k p₂ =>
        rw [add_data_nil_fresh] at h
        cases h
        exact add_data_chain_div v₁ v₂ (k :: p₂) q hpq hqp

/-- C1, witness: concrete sibling paths `("extras", "a")` and
`("extras", "b")` under the shared nested prefix `extras`, plus the
conflict on a repeated write to `("extras", "a")`. -/
theorem C1_witness :
    (add_data [("extras", .dict [("a", .leaf 0)])] ["extras", "a"] (.leaf 1) =
        .error .conflict ∧
      Value.getPath (.dict [("extras", .dict [("a", .leaf 0)])])
        ["extras", "a"] = some (.leaf 0)) ∧
    ∃ d₂, add_data [("extras", .dict [("a", .leaf 0)])] ["extras", "b"]
        (.leaf 1) = .ok d₂ := by
  constructor
  · exact C1_theorem.1 ["extras", "a"] [] _ (.leaf 0) (.leaf 1) rfl
  · exact C1_theorem.2 ["extras", "a"] ["extras", "b"] (.leaf 0) (.leaf 1) _
      (by rintro ⟨t, ht⟩; simp at ht)
      (by rintro ⟨t, ht⟩; simp at ht)
      rfl

/-- C10: the write-once check of `add_data` guards only the exact final key
within its parent container.  If a dictionary value is stored at path `p`,
a later `add_data` at the one-key extension `p ++ [k]` with `k` not present
in that dictionary succeeds without the Conflict error, and the previously
stored dictionary is mutated in place: reading path `p` afterwards gives
the same dictionary with the new entry appended. -/
theorem C10_theorem (p : List String) (dc sub : List (String × Value))
    (k : String) (v : Value)
    (hp : Value.getPath (.dict dc) p = some (.dict sub))
    (hk : lookupA sub k = none) :
    ∃ dc₂, add_data dc (p ++ [k]) v = .ok dc₂ ∧
      Value.getPath (.dict dc₂) p = some (.dict (sub ++ [(k, v)])) := by
  induction p generalizing dc sub with
  | nil =>
      simp only [Value.getPath, Option.some.injEq, Value.dict.injEq] at hp
      subst hp
      refine ⟨dc ++ [(k, v)], ?_, ?_⟩
      · simp [add_data, hk]
      · simp [Value.getPath]
  | cons k₀ p₂ ih =>
      cases hl : lookupA dc k₀ with
      | none => simp [Value.getPath, hl] at hp
      | some w =>
          simp only [Value.getPath, hl] at hp
          cases p₂ with
          | nil =>
              simp only [Value.getPath, Option.some.injEq] at hp
              subst hp
              refine ⟨setV dc k₀ (.dict (sub ++ [(k, v)])), ?_, ?_⟩
              · simp [add_data, hl, hk, Except.map]
              · simp [Value.getPath, lookupA_setV_self]
          | cons a as =>
              cases w with
              | leaf n => simp [Value.getPath] at hp
              | dict sub₀ =>
                  obtain ⟨sub₂, h₁, h₂⟩ := ih sub₀ sub hp hk
                  refine ⟨setV dc k₀ (.dict sub₂), ?_, ?_⟩
                  · simp only [List.cons_append, add_data, hl, List.append_eq]
                    rw [show a :: as ++ [k] = a :: (as ++ [k]) from rfl] at h₁
                    rw [h₁]
                    rfl
                  · simp [Value.getPath, lookupA_setV_self]
                    exact h₂

/-- C10, witness: a dict was stored at `("extras",)`; adding at
`("extras", "y")` succeeds and extends that dict in place. -/
theorem C10_witness :
    ∃ dc₂,
      add_data [("extras", .dict [("x", .leaf 0)])] (["extras"] ++ ["y"])
          (.leaf 1) = .ok dc₂ ∧
        Value.getPath (.dict dc₂) ["extras"] =
          some (.dict ([("x", .leaf 0)] ++ [("y", .leaf 1)])) :=
  C10_theorem ["extras"] [("extras", .dict [("x", .leaf 0)])]
    [("x", .leaf 0)] "y" (.leaf 1) rfl rfl

theorem lookupA_setAppend_self (r : List (String × List ParserSpec))
    (p : String) (s : ParserSpec) :
    lookupA (setAppend r p s) p = some ((lookupA r p).getD [] ++ [s]) := by
  induction r with
  | nil => simp [setAppend, lookupA]
  | cons hd tl ih =>
      obtain ⟨q, l⟩ := hd
      by_cases h : q = p <;> simp [setAppend, lookupA, h, ih]

/-- C3: registering a second spec for the same program whose (non-None)
target equals an already-registered spec's target and whose calc-type set
intersects the existing spec's calc-type set raises the duplicate-target
`RegistryError`; registering one with the same target but a calc-type set
disjoint from every registered spec's succeeds. -/
theorem C3_theorem (reg : ParserRegistry) (pr : String) (s₁ s₂ : ParserSpec)
    (t : Target) (hmem : s₁ ∈ (lookupA reg.registry pr).getD [])
    (hprog : s₂.program = pr) :
    (s₂.target = some t → s₁.target = some t →
        (∃ ct, ct ∈ s₂.calctypes ∧ ct ∈ s₁.calctypes) →
        reg.register s₂ = .error .registryConflict) ∧
    ((∀ s ∈ (lookupA reg.registry pr).getD [],
        ∀ ct ∈ s₂.calctypes, ct ∉ s.calctypes) →
        ∃ reg₂, reg.register s₂ = .ok reg₂) := by
  constructor
  · intro h₂ h₁ hint
    obtain ⟨ct, hct₂, hct₁⟩ := hint
    have e₁ : s₂.target.isSome = true := by rw [h₂]; rfl
    have e₂ : decide (s₁.target = s₂.target) = true := by
      rw [h₁, h₂]; simp
    have e₃ : s₂.calctypes.any (fun c => decide (c ∈ s₁.calctypes)) = true :=
      List.any_eq_true.mpr ⟨ct, hct₂, by simpa using hct₁⟩
    have hc : conflictsWith s₂ s₁ = true := by
      rw [conflictsWith, e₁, e₂, e₃]
      rfl
    have hany : ((lookupA reg.registry s₂.program).getD []).any
        (conflictsWith s₂) = true := by
      rw [hprog]
      exact List.any_eq_true.mpr ⟨s₁, hmem, hc⟩
    simp [ParserRegistry.register, hany]
  · intro hdisj
    have hany : ((lookupA reg.registry s₂.program).getD []).any
        (conflictsWith s₂) = false := by
      rw [hprog]
      rw [List.any_eq_false]
      intro s hs
      simp only [conflictsWith, Bool.and_eq_true, List.any_eq_true,
        decide_eq_true_eq, Bool.not_eq_true]
      intro hcontra
      obtain ⟨⟨_, _⟩, ct, hct, hctmem⟩ := hcontra
      exact hdisj s hs ct hct hctmem
    refine ⟨⟨setAppend reg.registry s₂.program s₂⟩, ?_⟩
    simp [ParserRegistry.register, hany]

/-- C3, witness: one registered stdout spec targeting `"energy"` for
energy and gradient; a same-target spec overlapping on energy is rejected,
a same-target spec for hessian only is accepted. -/
theorem C3_witness :
    (ParserRegistry.register
        ⟨[("prog", [⟨fun _ => .ok (.leaf 0), .stdout, true,
            [.energy, .gradient], "prog", some (.str "energy")⟩])]⟩
        ⟨fun _ => .ok (.leaf 1), .stdout, true, [.energy], "prog",
          some (.str "energy")⟩ = .error .registryConflict) ∧
    ∃ reg₂, ParserRegistry.register
        ⟨[("prog", [⟨fun _ => .ok (.leaf 0), .stdout, true,
            [.energy, .gradient], "prog", some (.str "energy")⟩])]⟩
        ⟨fun _ => .ok (.leaf 2), .stdout, true, [.hessian], "prog",
          some (.str "energy")⟩ = .ok reg₂ := by
  constructor
  · exact (C3_theorem
      ⟨[("prog", [⟨fun _ => .ok (.leaf 0), .stdout, true,
          [.energy, .gradient], "prog", some (.str "energy")⟩])]⟩
      "prog"
      ⟨fun _ => .ok (.leaf 0), .stdout, true, [.energy, .gradient], "prog",
        some (.str "energy")⟩
      ⟨fun _ => .ok (.leaf 1), .stdout, true, [.energy], "prog",
        some (.str "energy")⟩
      (.str "energy") (List.mem_singleton.mpr rfl) rfl).1
      rfl rfl ⟨.energy, by simp, by simp⟩
  · refine (C3_theorem
      ⟨[("prog", [⟨fun _ => .ok (.leaf 0), .stdout, true,
          [.energy, .gradient], "prog", some (.str "energy")⟩])]⟩
      "prog"
      ⟨fun _ => .ok (.leaf 0), .stdout, true, [.energy, .gradient], "prog",
        some (.str "energy")⟩
      ⟨fun _ => .ok (.leaf 2), .stdout, true, [.hessian], "prog",
        some (.str "energy")⟩
      (.str "energy") (List.mem_singleton.mpr rfl) rfl).2 ?_
    intro s hs ct hct
    have hs₂ : s ∈ [(⟨fun _ => .ok (.leaf 0), .stdout, true,
        [.energy, .gradient], "prog", some (.str "energy")⟩ : ParserSpec)] := hs
    rcases List.mem_singleton.mp hs₂ with rfl
    have hct₂ : ct ∈ [CalcType.hessian] := hct
    rcases List.mem_singleton.mp hct₂ with rfl
    simp

/-- C7, counterexample: a spec registered through the `register` decorator
with an explicitly EMPTY calc-type list does not apply to all calculation
types — `get_parsers` filtered by `CalcType.energy` filters it out and
returns the empty list, because only `calctypes=None` defaults to
`list(CalcType)` while an empty list is kept as-is. -/
theorem C7_counterexample :
    ∃ reg₂, registerFun .stdout (some []) true (some (.str "energy")) "prog"
        (fun _ => .ok (.leaf 0)) ⟨[]⟩ = .ok reg₂ ∧
      (reg₂.get_parsers "prog" none (some .energy)).1 = .ok [] := by
  refine ⟨⟨[("prog", [⟨fun _ => .ok (.leaf 0), .stdout, true, [], "prog",
      some (.str "energy")⟩])]⟩, rfl, rfl⟩

/-- C7 (amended): a spec whose calc-type set is OMITTED at registration
(`calctypes=None`) is given the full `list(CalcType)` and so applies to all
calculation types: `get_parsers` filtered by any calc type returns it among
its results.  (An explicitly empty calc-type list, by contrast, survives as
empty and matches no calc-type filter.) -/
theorem get_parsers_after_append (reg : ParserRegistry) (s : ParserSpec)
    (ct : CalcType) :
    (ParserRegistry.get_parsers ⟨setAppend reg.registry s.program s⟩
        s.program none (some ct)).1 =
      .ok (((lookupA reg.registry s.program).getD [] ++ [s]).filter
        (fun ps => decide (ct ∈ ps.calctypes))) := by
  simp only [ParserRegistry.get_parsers, lookupA_setAppend_self]
  rw [if_neg (by simp)]

theorem C7_theorem (reg reg₂ : ParserRegistry) (ft : FileType) (req : Bool)
    (tgt : Option Target) (pr : String)
    (pfn : CallArgs → Except PErr Value) (ct : CalcType)
    (h : registerFun ft none req tgt pr pfn reg = .ok reg₂) :
    ∃ l, (reg₂.get_parsers pr none (some ct)).1 = .ok l ∧
      (⟨pfn, ft, req, allCalcTypes, pr, tgt⟩ : ParserSpec) ∈ l := by
  have h₂ : mkParserSpec pfn ft req allCalcTypes pr tgt >>= reg.register
      = .ok reg₂ := h
  by_cases hbad : tgt = none ∧ ft ≠ .directory
  · rw [mkParserSpec, if_pos hbad] at h₂
    exact absurd h₂ (by simp [Bind.bind, Except.bind])
  · rw [mkParserSpec, if_neg hbad] at h₂
    have h₃ : reg.register ⟨pfn, ft, req, allCalcTypes, pr, tgt⟩
        = .ok reg₂ := h₂
    rw [ParserRegistry.register] at h₃
    by_cases hany : ((lookupA reg.registry
        (ParserSpec.mk pfn ft req allCalcTypes pr tgt).program).getD []).any
        (conflictsWith (ParserSpec.mk pfn ft req allCalcTypes pr tgt)) = true
    · rw [if_pos hany] at h₃
      cases h₃
    · rw [if_neg hany] at h₃
      injection h₃ with h₄
      subst h₄
      refine ⟨((lookupA reg.registry pr).getD [] ++
        [ParserSpec.mk pfn ft req allCalcTypes pr tgt]).filter
          (fun ps => decide (ct ∈ ps.calctypes)),
        get_parsers_after_append reg
          (ParserSpec.mk pfn ft req allCalcTypes pr tgt) ct,
        ?_⟩
      refine List.mem_filter.mpr ⟨List.mem_append_right _ ?_, ?_⟩
      · simp
      · simp [mem_allCalcTypes]

/-- C7, witness: a decorator registration with omitted calc types into an
empty registry; the resulting spec is returned when filtering by
`CalcType.hessian`. -/
theorem C7_witness :
    ∃ l, (ParserRegistry.get_parsers
        ⟨[("prog", [⟨fun _ => .ok (.leaf 0), .stdout, true, allCalcTypes,
            "prog", some (.str "energy")⟩])]⟩ "prog" none (some .hessian)).1
        = .ok l ∧
      (⟨fun _ => .ok (.leaf 0), .stdout, true, allCalcTypes, "prog",
        some (.str "energy")⟩ : ParserSpec) ∈ l :=
  C7_theorem ⟨[]⟩ _ .stdout true (some (.str "energy")) "prog"
    (fun _ => .ok (.leaf 0)) .hessian rfl

/-- C8: `get_parsers` raises the no-parsers `RegistryError` exactly when
the given program has no registered specs at all (no entry, or an entry
holding the empty list); when the program has specs but the filters
eliminate all of them it returns a (possibly empty) list without raising. -/
theorem C8_theorem (reg : ParserRegistry) (program : String)
    (ft : Option FileType) (ct : Option CalcType) :
    ((reg.get_parsers program ft ct).1 = .error .noParsers ↔
      (lookupA reg.registry program).getD [] = []) ∧
    ((lookupA reg.registry program).getD [] ≠ [] →
      ∃ l, (reg.get_parsers program ft ct).1 = .ok l) := by
  cases hl : lookupA reg.registry program with
  | none => simp [ParserRegistry.get_parsers, hl]
  | some l =>
      cases l with
      | nil => simp [ParserRegistry.get_parsers, hl]
      | cons s rest => simp [ParserRegistry.get_parsers, hl]

/-- C8, witness: an empty registry raises for `"prog"`, while a registry
whose only spec for `"prog"` is filtered out by an unmatched calc type
returns without raising. -/
theorem C8_witness :
    ((ParserRegistry.get_parsers ⟨[]⟩ "prog" none none).1 =
      .error .noParsers) ∧
    ∃ l, (ParserRegistry.get_parsers
        ⟨[("prog", [⟨fun _ => .ok (.leaf 0), .stdout, true, [.energy],
            "prog", some (.str "energy")⟩])]⟩ "prog" none
        (some .hessian)).1 = .ok l := by
  constructor
  · exact (C8_theorem ⟨[]⟩ "prog" none none).1.mpr rfl
  · exact (C8_theorem _ "prog" none (some .hessian)).2 (by simp [lookupA])

/-- C9, counterexample: `registry` is a `defaultdict`, so
`self.registry[program]` inside `get_parsers` INSERTS an empty entry for an
unknown program before the emptiness check raises — the failed lookup
mutates the program-to-specs mapping (`supported_programs` would list the
unknown program afterwards). -/
theorem C9_counterexample :
    (ParserRegistry.get_parsers ⟨[]⟩ "nosuch" none none).2.registry ≠
      ([] : List (String × List ParserSpec)) := by
  simp [ParserRegistry.get_parsers, lookupA]

/-- C9 (amended): lookups for a program already present in the mapping
never mutate the registry — `get_parsers` (with any filters, including
calls that fail with the no-parsers error on a present-but-empty entry) and
`supported_filetypes` return the registry state unchanged, and
`supported_programs` is a pure read of the keys; a `get_parsers` call for
an absent program, however, appends an empty entry for it to the mapping. -/
theorem C9_theorem (reg : ParserRegistry) (p q : String)
    (ft : Option FileType) (ct : Option CalcType)
    (hp : (lookupA reg.registry p).isSome)
    (hq : lookupA reg.registry q = none) :
    (reg.get_parsers p ft ct).2 = reg ∧
    (reg.supported_filetypes p).2 = reg ∧
    reg.supported_programs = reg.registry.map Prod.fst ∧
    (reg.get_parsers q ft ct).2.registry = reg.registry ++ [(q, [])] := by
  have key : ∀ (ft₂ : Option FileType) (ct₂ : Option CalcType),
      (reg.get_parsers p ft₂ ct₂).2 = reg := by
    intro ft₂ ct₂
    cases hl : lookupA reg.registry p with
    | none => rw [hl] at hp; simp at hp
    | some l =>
        by_cases he : l.isEmpty <;>
          simp [ParserRegistry.get_parsers, hl, he]
  refine ⟨key ft ct, ?_, rfl, ?_⟩
  · rcases hgp : reg.get_parsers p none none with ⟨res, reg₂⟩
    have : reg₂ = reg := by
      have := key none none
      rw [hgp] at this
      exact this
    subst this
    cases res <;> simp [ParserRegistry.supported_filetypes, hgp]
  · simp [ParserRegistry.get_parsers, hq]

/-- C9, witness: a registry holding only program `"crest"`; looking up
`"crest"` (and its filetypes) leaves the mapping untouched, looking up
`"nosuch"` appends an empty `"nosuch"` entry. -/
theorem C9_witness :
    ((ParserRegistry.get_parsers ⟨[("crest", [])]⟩ "crest" none none).2 =
        ⟨[("crest", [])]⟩) ∧
    ((ParserRegistry.supported_filetypes ⟨[("crest", [])]⟩ "crest").2 =
        ⟨[("crest", [])]⟩) ∧
    (ParserRegistry.supported_programs ⟨[("crest", [])]⟩ =
        ["crest"]) ∧
    ((ParserRegistry.get_parsers ⟨[("crest", [])]⟩ "nosuch" none none).2.registry
        = [("crest", [])] ++ [("nosuch", [])]) :=
  C9_theorem ⟨[("crest", [])]⟩ "crest" "nosuch" none none rfl rfl

/-- C4: for a fixed stdout value and a fixed directory snapshot, the
sequence yielded by `iter_files` is the stdout entry first, then the
Directory entry, then one entry per recognized named auxiliary file
present, in the fixed program-defined order `crestAuxOrder` (absent files
silently skipped); the sequence depends only on which named files the
directory holds, not on the directory-listing order, and the function is
pure, so repeated invocations yield the same entries in the same order. -/
theorem C4_theorem (s : String) (d d₂ : DirSnapshot)
    (h₁ : d.dirExists = true) (h₂ : d.isDir = true)
    (h₃ : d₂.dirExists = true) (h₄ : d₂.isDir = true)
    (hsame : ∀ n, lookupA d.files n = lookupA d₂.files n) :
    iter_files (some s) (some d) = iter_files (some s) (some d₂) ∧
    iter_files (some s) (some d) =
      ⟨(FileType.stdout, .text s) :: (FileType.directory, .dirPath) ::
        crestAuxOrder.filterMap (fun ft =>
          (lookupA d.files ft.value).map (fun t => (ft, Content.text t))),
       false⟩ ∧
    iter_files (some s) none = ⟨[(FileType.stdout, .text s)], false⟩ ∧
    iter_files none (some d) =
      ⟨(FileType.directory, .dirPath) ::
        crestAuxOrder.filterMap (fun ft =>
          (lookupA d.files ft.value).map (fun t => (ft, Content.text t))),
       false⟩ := by
  have hfm : crestAuxOrder.filterMap (fun ft =>
        (lookupA d.files ft.value).map (fun t => (ft, Content.text t)))
      = crestAuxOrder.filterMap (fun ft =>
        (lookupA d₂.files ft.value).map (fun t => (ft, Content.text t))) :=
    List.filterMap_congr (fun ft _ => by rw [hsame])
  refine ⟨?_, ?_, ?_, ?_⟩
  · simp [iter_files, h₁, h₂, h₃, h₄, hfm]
  · simp [iter_files, h₁, h₂]
  · simp [iter_files]
  · simp [iter_files, h₁, h₂]

/-- C4, witness: two snapshots listing the same two auxiliary files in
opposite orders classify identically, and the yielded sequence is stdout,
Directory, then numhess1 before g98.out (enum order, not listing order). -/
theorem C4_witness :
    iter_files (some "out")
        (some ⟨true, true, [("numhess1", "A"), ("g98.out", "B")]⟩)
      = iter_files (some "out")
        (some ⟨true, true, [("g98.out", "B"), ("numhess1", "A")]⟩) ∧
    iter_files (some "out")
        (some ⟨true, true, [("numhess1", "A"), ("g98.out", "B")]⟩)
      = ⟨[(.stdout, .text "out"), (.directory, .dirPath),
          (.numhess, .text "A"), (.g98, .text "B")], false⟩ := by
  have h := C4_theorem "out" ⟨true, true, [("numhess1", "A"), ("g98.out", "B")]⟩
    ⟨true, true, [("g98.out", "B"), ("numhess1", "A")]⟩ rfl rfl rfl rfl ?_
  · exact ⟨h.1, h.2.1⟩
  · intro n
    by_cases hA : n = "numhess1"
    · subst hA; decide
    · by_cases hB : n = "g98.out"
      · subst hB; decide
      · simp [lookupA, show ¬"numhess1" = n from fun hh => hA hh.symm,
          show ¬"g98.out" = n from fun hh => hB hh.symm]

/-- Whether an `Except` result is a success. -/
def isOkE {α : Type} : Except DecodeErr α → Bool
  | .ok _ => true
  | .error _ => false

/-- A successful `get_parsers` call leaves the registry untouched (only the
unknown-program failure path mutates it). -/
theorem get_parsers_ok_same (reg : ParserRegistry) (p : String)
    (ft : Option FileType) (ct : Option CalcType) (l : List ParserSpec)
    (h : (reg.get_parsers p ft ct).1 = .ok l) :
    reg.get_parsers p ft ct = (.ok l, reg) := by
  cases hl : lookupA reg.registry p with
  | none => simp [ParserRegistry.get_parsers, hl] at h
  | some l₀ =>
      by_cases he : l₀.isEmpty
      · simp [ParserRegistry.get_parsers, hl, he] at h
      · simp only [ParserRegistry.get_parsers, hl, if_neg he] at h ⊢
        rw [Prod.mk.injEq]
        exact ⟨h, rfl⟩

/-- A spec whose run always fails makes the whole spec loop fail whenever
it is in the list. -/
theorem runSpecs_not_ok (specs : List ParserSpec) (spec : ParserSpec)
    (ctx : Ctx) (hmem : spec ∈ specs)
    (hfail : ∀ dc, runSpec dc spec ctx = .error .matchNotFound) :
    ∀ dc, isOkE (runSpecs specs dc ctx) = false := by
  induction specs with
  | nil => cases hmem
  | cons s rest ih =>
      intro dc
      cases hmem with
      | head => simp [runSpecs, hfail dc, isOkE]
      | tail _ hmem₂ =>
          cases hr : runSpec dc s ctx with
          | error e => simp [runSpecs, hr, isOkE]
          | ok dc₂ => simpa [runSpecs, hr] using ih hmem₂ dc₂

/-- The outer decode loop cannot succeed if some yielded entry has an
applicable spec whose run always fails. -/
theorem processEntries_not_ok (program : String) (ct : CalcType)
    (dir : Option DirSnapshot) (stdout : Option String) (inp : Option Nat)
    (reg : ParserRegistry) (ft : FileType) (contents : Content)
    (specs : List ParserSpec) (spec : ParserSpec)
    (hspecs : (reg.get_parsers program (some ft) (some ct)).1 = .ok specs)
    (hmem : spec ∈ specs)
    (hfail : ∀ dc, runSpec dc spec ⟨contents, dir, stdout, inp⟩ =
      .error .matchNotFound) :
    ∀ (entries : List (FileType × Content)) (dc : DataCollector),
      (ft, contents) ∈ entries →
      isOkE (processEntries program ct dir stdout inp entries dc reg)
        = false := by
  intro entries
  induction entries with
  | nil => intro dc hent; cases hent
  | cons e rest ih =>
      intro dc hent
      cases hent with
      | head =>
          have hgp := get_parsers_ok_same reg program (some ft) (some ct)
            specs hspecs
          have hrs := runSpecs_not_ok specs spec
            ⟨contents, dir, stdout, inp⟩ hmem hfail dc
          cases hr : runSpecs specs dc ⟨contents, dir, stdout, inp⟩ with
          | error e₂ => simp [processEntries, hgp, hr, isOkE]
          | ok dc₂ => rw [hr] at hrs; simp [isOkE] at hrs
      | tail _ hent₂ =>
          obtain ⟨ft₂, c₂⟩ := e
          cases hgp : reg.get_parsers program (some ft₂) (some ct) with
          | mk res reg₂ =>
              cases res with
              | error err => simp [processEntries, hgp, isOkE]
              | ok specs₂ =>
                  have hreg : reg₂ = reg := by
                    have h₂ := get_parsers_ok_same reg program (some ft₂)
                      (some ct) specs₂ (by rw [hgp])
                    rw [hgp] at h₂
                    exact congrArg Prod.snd h₂
                  cases hr : runSpecs specs₂ dc ⟨c₂, dir, stdout, inp⟩ with
                  | error e₂ => simp [processEntries, hgp, hr, isOkE]
                  | ok dc₂ =>
                      rw [hreg] at hgp
                      simpa [processEntries, hgp, hr] using ih dc₂ hent₂

/-- C2: if an extraction function whose spec is required raises the NoMatch
signal (`MatchNotFoundError`) on the inputs of a decode call in which its
spec is applicable to a yielded entry, the orchestrator's per-spec step
re-raises that error rather than storing anything, and `decode` returns no
result at all — the caller never receives a (partial) result object. -/
theorem C2_theorem (iterF : Option String → Option DirSnapshot → IterResult)
    (reg : ParserRegistry) (program : String) (calctype : CalcType)
    (stdout : Option String) (directory : Option DirSnapshot)
    (input_data : Option Nat) (as_dict : Bool) (ft : FileType)
    (contents : Content) (specs : List ParserSpec) (spec : ParserSpec)
    (hent : (ft, contents) ∈ (iterF stdout directory).entries)
    (hspecs : (reg.get_parsers program (some ft) (some calctype)).1
      = .ok specs)
    (hmem : spec ∈ specs) (hreq : spec.required = true)
    (hfail : invoke spec ⟨contents, directory, stdout, input_data⟩ =
      .error .matchNotFound) :
    (∀ dc, runSpec dc spec ⟨contents, directory, stdout, input_data⟩ =
      .error .matchNotFound) ∧
    isOkE (decode (some iterF) reg program calctype stdout directory
      input_data as_dict) = false := by
  have hrs : ∀ dc, runSpec dc spec ⟨contents, directory, stdout, input_data⟩
      = .error .matchNotFound := by
    intro dc
    rw [runSpec, hfail, hreq]
    rfl
  refine ⟨hrs, ?_⟩
  have hpe := processEntries_not_ok program calctype directory stdout
    input_data reg ft contents specs spec hspecs hmem hrs
    (iterF stdout directory).entries [] hent
  simp only [decode]
  by_cases hguard : (!truthyS stdout && !directory.isSome) = true
  · rw [if_pos hguard]; rfl
  · rw [if_neg hguard]
    cases hp : processEntries program calctype directory stdout input_data
        (iterF stdout directory).entries [] reg with
    | error e => simp [isOkE]
    | ok pr => rw [hp] at hpe; simp [isOkE] at hpe

/-- C2, witness: one required stdout spec whose parser never matches; the
decode call fails outright. -/
theorem C2_witness :
    (∀ dc, runSpec dc
        ⟨fun _ => .error .matchNotFound, .stdout, true, [.energy], "prog",
          some (.str "energy")⟩
        ⟨.text "X", none, some "X", none⟩ = .error .matchNotFound) ∧
    isOkE (decode (some (fun _ _ => ⟨[(.stdout, .text "X")], false⟩))
      ⟨[("prog", [⟨fun _ => .error .matchNotFound, .stdout, true, [.energy],
          "prog", some (.str "energy")⟩])]⟩
      "prog" .energy (some "X") none none true) = false :=
  C2_theorem (fun _ _ => ⟨[(.stdout, .text "X")], false⟩)
    ⟨[("prog", [⟨fun _ => .error .matchNotFound, .stdout, true, [.energy],
        "prog", some (.str "energy")⟩])]⟩
    "prog" .energy (some "X") none none true .stdout (.text "X")
    [⟨fun _ => .error .matchNotFound, .stdout, true, [.energy], "prog",
      some (.str "energy")⟩]
    ⟨fun _ => .error .matchNotFound, .stdout, true, [.energy], "prog",
      some (.str "energy")⟩
    (List.mem_singleton.mpr rfl) rfl (List.mem_singleton.mpr rfl) rfl rfl

/-- `add_data` never removes a top-level key: successful writes only append
entries or update a key to a bigger nested dict. -/
theorem add_data_keeps (dc dc₂ : List (String × Value)) (p : List String)
    (v : Value) (k : String) (h : add_data dc p v = .ok dc₂)
    (hk : (lookupA dc k).isSome = true) :
    (lookupA dc₂ k).isSome = true := by
  cases p with
  | nil => simp [add_data] at h
  | cons k₁ rest =>
      cases rest with
      | nil =>
          cases hl : lookupA dc k₁ with
          | some w => simp [add_data, hl] at h
          | none =>
              simp only [add_data, hl] at h
              cases h
              obtain ⟨w, hw⟩ := Option.isSome_iff_exists.mp hk
              rw [lookupA_append_some hw]
              rfl
      | cons k₂ ks =>
          cases hl : lookupA dc k₁ with
          | some w =>
              cases w with
              | leaf n => simp [add_data, hl] at h
              | dict sub =>
                  simp only [add_data, hl] at h
                  cases hs : add_data sub (k₂ :: ks) v with
                  | error e => rw [hs] at h; simp [Except.map] at h
                  | ok sub₂ =>
                      rw [hs] at h
                      simp only [Except.map] at h
                      cases h
                      by_cases hkk : k = k₁
                      · subst hkk
                        rw [lookupA_setV_self]
                        rfl
                      · rw [lookupA_setV_ne dc k₁ k _ hkk]
                        exact hk
          | none =>
              simp only [add_data, hl] at h
              cases hs : add_data [] (k₂ :: ks) v with
              | error e => rw [hs] at h; simp [Except.map] at h
              | ok sub₂ =>
                  rw [hs] at h
                  simp only [Except.map] at h
                  cases h
                  obtain ⟨w, hw⟩ := Option.isSome_iff_exists.mp hk
                  rw [lookupA_append_some hw]
                  rfl

theorem addEntries_keeps (m : List (String × Value)) (dc dc₂ : DataCollector)
    (k : String) (h : addEntries m dc = .ok dc₂)
    (hk : (lookupA dc k).isSome = true) :
    (lookupA dc₂ k).isSome = true := by
  induction m generalizing dc with
  | nil =>
      simp only [addEntries] at h
      cases h
      exact hk
  | cons kv rest ih =>
      obtain ⟨k₁, v₁⟩ := kv
      cases ha : add_data dc [k₁] v₁ with
      | error e => simp [addEntries, ha] at h
      | ok dcm =>
          simp only [addEntries, ha] at h
          exact ih dcm h (add_data_keeps dc dcm [k₁] v₁ k ha hk)

theorem storeParsed_keeps (dc dc₂ : DataCollector) (spec : ParserSpec)
    (v : Value) (k : String) (h : storeParsed dc spec v = .ok dc₂)
    (hk : (lookupA dc k).isSome = true) :
    (lookupA dc₂ k).isSome = true := by
  cases v with
  | dict m => exact addEntries_keeps m dc dc₂ k h hk
  | leaf n =>
      cases ht : spec.target with
      | none => simp [storeParsed, ht] at h
      | some t =>
          simp only [storeParsed, ht] at h
          cases ha : add_data dc t.keys (.leaf n) with
          | error e => rw [ha] at h; cases h
          | ok dcm =>
              rw [ha] at h
              cases h
              exact add_data_keeps dc dc₂ t.keys _ k ha hk

theorem runSpec_keeps (dc dc₂ : DataCollector) (spec : ParserSpec)
    (ctx : Ctx) (k : String) (h : runSpec dc spec ctx = .ok dc₂)
    (hk : (lookupA dc k).isSome = true) :
    (lookupA dc₂ k).isSome = true := by
  rw [runSpec] at h
  cases hi : invoke spec ctx with
  | error e =>
      rw [hi] at h
      cases e with
      | matchNotFound =>
          by_cases hrq : spec.required
          · simp [hrq] at h
          · simp only [hrq, if_false, Bool.false_eq_true] at h
            cases h
            exact hk
      | parserError => cases h
  | ok v =>
      rw [hi] at h
      exact storeParsed_keeps dc dc₂ spec v k h hk

theorem runSpecs_keeps (specs : List ParserSpec) (dc dc₂ : DataCollector)
    (ctx : Ctx) (k : String) (h : runSpecs specs dc ctx = .ok dc₂)
    (hk : (lookupA dc k).isSome = true) :
    (lookupA dc₂ k).isSome = true := by
  induction specs generalizing dc with
  | nil =>
      simp only [runSpecs] at h
      cases h
      exact hk
  | cons s rest ih =>
      cases hr : runSpec dc s ctx with
      | error e => simp [runSpecs, hr] at h
      | ok dcm =>
          simp only [runSpecs, hr] at h
          exact ih dcm h (runSpec_keeps dc dcm s ctx k hr hk)

/-- Keys present in the collector remain present through the rest of a
successful decode run: no step of the pipeline ever deletes a binding. -/
theorem processEntries_keeps (program : String) (ct : CalcType)
    (dir : Option DirSnapshot) (stdout : Option String) (inp : Option Nat) :
    ∀ (entries : List (FileType × Content)) (dc : DataCollector)
      (reg : ParserRegistry) (dcF : DataCollector) (regF : ParserRegistry)
      (k : String),
      processEntries program ct dir stdout inp entries dc reg
        = .ok (dcF, regF) →
      (lookupA dc k).isSome = true → (lookupA dcF k).isSome = true := by
  intro entries
  induction entries with
  | nil =>
      intro dc reg dcF regF k h hk
      simp only [processEntries, Except.ok.injEq, Prod.mk.injEq] at h
      obtain ⟨rfl, rfl⟩ := h
      exact hk
  | cons e rest ih =>
      intro dc reg dcF regF k h hk
      obtain ⟨ft, c⟩ := e
      cases hgp : reg.get_parsers program (some ft) (some ct) with
      | mk res reg₂ =>
          cases res with
          | error err => simp [processEntries, hgp] at h
          | ok specs =>
              cases hr : runSpecs specs dc ⟨c, dir, stdout, inp⟩ with
              | error e₂ => simp [processEntries, hgp, hr] at h
              | ok dcm =>
                  simp only [processEntries, hgp, hr] at h
                  exact ih dcm reg₂ dcF regF k h
                    (runSpecs_keeps specs dc dcm _ k hr hk)

/-- Folding fresh, key-distinct entries into the collector appends them all
and cannot fail. -/
theorem addEntries_fresh (m : List (String × Value)) (dc : DataCollector)
    (hnodup : (m.map Prod.fst).Nodup)
    (hfresh : ∀ kv ∈ m, lookupA dc kv.1 = (none : Option Value)) :
    addEntries m dc = .ok (dc ++ m) := by
  induction m generalizing dc with
  | nil => simp [addEntries]
  | cons kv rest ih =>
      obtain ⟨k, v⟩ := kv
      have hk : lookupA dc k = none := hfresh (k, v) (List.mem_cons_self _ _)
      have hadd : add_data dc [k] v = .ok (dc ++ [(k, v)]) := by
        simp [add_data, hk]
      have hnd : k ∉ rest.map Prod.fst ∧ (rest.map Prod.fst).Nodup := by
        rw [List.map_cons, List.nodup_cons] at hnodup
        exact hnodup
      have hrest : ∀ kv₂ ∈ rest,
          lookupA (dc ++ [(k, v)]) kv₂.1 = (none : Option Value) := by
        intro kv₂ hm
        have hne : ¬k = kv₂.1 := by
          intro he
          exact hnd.1 (he ▸ List.mem_map.mpr ⟨kv₂, hm, rfl⟩)
        rw [lookupA_append_none (hfresh kv₂ (List.mem_cons_of_mem _ hm))]
        simp [lookupA, hne]
      simp only [addEntries, hadd]
      rw [ih (dc ++ [(k, v)]) hnd.2 hrest]
      simp

/-- In a list with pairwise-distinct keys, lookup finds each member. -/
theorem lookupA_of_mem_nodup (m : List (String × Value)) (k : String)
    (v : Value) (hmem : (k, v) ∈ m) (hnodup : (m.map Prod.fst).Nodup) :
    lookupA m k = some v := by
  induction m with
  | nil => cases hmem
  | cons kv rest ih =>
      obtain ⟨k₀, v₀⟩ := kv
      have hnd : k₀ ∉ rest.map Prod.fst ∧ (rest.map Prod.fst).Nodup := by
        rw [List.map_cons, List.nodup_cons] at hnodup
        exact hnodup
      cases hmem with
      | head => simp [lookupA]
      | tail _ h₂ =>
          have hne : ¬k₀ = k := by
            intro he
            exact hnd.1 (he ▸ List.mem_map.mpr ⟨(k, v), h₂, rfl⟩)
          simp [lookupA, hne, ih h₂ hnd.2]

/-- C5: when a parser returns a mapping, the orchestrator performs one
independent `add_data` call per mapping item, keyed by the item's own key
and ignoring the spec's target entirely (any two specs store a mapping
identically); when the mapping's keys are pairwise distinct and absent from
the collector — as for a fresh Directory-kind extractor result — every item
is appended without any Conflict among the entries of that single call,
each key reads back its value, and the keys remain present through the
rest of any successful decode run. -/
theorem C5_theorem (spec spec₂ : ParserSpec) (m : List (String × Value))
    (dc : DataCollector) (hnodup : (m.map Prod.fst).Nodup)
    (hfresh : ∀ kv ∈ m, lookupA dc kv.1 = (none : Option Value)) :
    storeParsed dc spec (.dict m) = storeParsed dc spec₂ (.dict m) ∧
    storeParsed dc spec (.dict m) = .ok (dc ++ m) ∧
    (∀ kv ∈ m, lookupA (dc ++ m) kv.1 = some kv.2) ∧
    (∀ (program : String) (ct : CalcType) (dir : Option DirSnapshot)
        (stdout : Option String) (inp : Option Nat)
        (entries : List (FileType × Content)) (dcF : DataCollector)
        (regF reg : ParserRegistry),
      processEntries program ct dir stdout inp entries (dc ++ m) reg
        = .ok (dcF, regF) →
      ∀ kv ∈ m, (lookupA dcF kv.1).isSome = true) := by
  have hread : ∀ kv ∈ m, lookupA (dc ++ m) kv.1 = some kv.2 := by
    intro kv hm
    rw [lookupA_append_none (hfresh kv hm)]
    exact lookupA_of_mem_nodup m kv.1 kv.2 hm hnodup
  refine ⟨rfl, addEntries_fresh m dc hnodup hfresh, hread, ?_⟩
  intro program ct dir stdout inp entries dcF regF reg h kv hm
  exact processEntries_keeps program ct dir stdout inp entries (dc ++ m)
    reg dcF regF kv.1 h (by rw [hread kv hm]; rfl)

/-- C5, witness: the conformer-search mapping of the spec's example
scenario, stored into a fresh collector — both keys land and read back. -/
theorem C5_witness :
    storeParsed []
        ⟨fun _ => .ok (.leaf 9), .directory, true, [.conformer_search],
          "crest", none⟩
        (.dict [("conformers", .leaf 0), ("conformer_energies", .leaf 1)])
      = .ok ([] ++ [("conformers", .leaf 0), ("conformer_energies", .leaf 1)])
    ∧ (∀ kv ∈ [("conformers", Value.leaf 0),
          ("conformer_energies", Value.leaf 1)],
        lookupA ([] ++ [("conformers", Value.leaf 0),
          ("conformer_energies", Value.leaf 1)]) kv.1 = some kv.2) := by
  have h := C5_theorem
    ⟨fun _ => .ok (.leaf 9), .directory, true, [.conformer_search],
      "crest", none⟩
    ⟨fun _ => .ok (.leaf 9), .directory, true, [.conformer_search],
      "crest", none⟩
    [("conformers", .leaf 0), ("conformer_energies", .leaf 1)] []
    (by simp) (fun kv _ => rfl)
  exact ⟨h.2.1, h.2.2.1⟩

/-- Outcome agreement for the decode outer loop run under two registries:
the same error, or success with the same collected data (the threaded
registry states may differ). -/
def sameOutcome (a b : Except DecodeErr (DataCollector × ParserRegistry)) :
    Prop :=
  match a, b with
  | .error e, .error e₂ => e = e₂
  | .ok (d, _), .ok (d₂, _) => d = d₂
  | _, _ => False

theorem get_parsers_of_lookup (reg : ParserRegistry) (p : String)
    (l : List ParserSpec) (ft : FileType) (ct : CalcType)
    (hl : lookupA reg.registry p = some l) (hne : l ≠ []) :
    reg.get_parsers p (some ft) (some ct)
      = (.ok ((l.filter (fun ps => decide (ps.filetype = ft))).filter
          (fun ps => decide (ct ∈ ps.calctypes))), reg) := by
  simp only [ParserRegistry.get_parsers, hl]
  rw [if_neg (by simp [hne])]

/-- An optional spec whose parser never matches is a no-op for the spec
loop. -/
theorem runSpec_skip (s : ParserSpec) (hreq : s.required = false)
    (hfail : ∀ args, s.parser args = .error .matchNotFound)
    (dc : DataCollector) (ctx : Ctx) : runSpec dc s ctx = .ok dc := by
  have hi : invoke s ctx = .error .matchNotFound := by
    rw [invoke]
    split <;> exact hfail _
  rw [runSpec, hi]
  simp [hreq]

/-- Deleting an always-failing optional spec from anywhere in the spec list
leaves the spec loop's behaviour unchanged. -/
theorem runSpecs_skip (s : ParserSpec) (hreq : s.required = false)
    (hfail : ∀ args, s.parser args = .error .matchNotFound) :
    ∀ (l₁ l₂ : List ParserSpec) (dc : DataCollector) (ctx : Ctx),
      runSpecs (l₁ ++ s :: l₂) dc ctx = runSpecs (l₁ ++ l₂) dc ctx := by
  intro l₁
  induction l₁ with
  | nil =>
      intro l₂ dc ctx
      simp [runSpecs, runSpec_skip s hreq hfail dc ctx]
  | cons a rest ih =>
      intro l₂ dc ctx
      simp only [List.cons_append, runSpecs]
      cases runSpec dc a ctx with
      | error e => rfl
      | ok dc₂ => exact ih l₂ dc₂ ctx

/-- Deleting an always-failing optional spec from the program's registry
list leaves the outer decode loop's outcome unchanged (provided other specs
remain, so the program stays registered). -/
theorem processEntries_equiv (program : String) (ct : CalcType)
    (dir : Option DirSnapshot) (stdout : Option String) (inp : Option Nat)
    (s : ParserSpec) (l₁ l₂ : List ParserSpec) (reg₁ reg₂ : ParserRegistry)
    (h₁ : lookupA reg₁.registry program = some (l₁ ++ s :: l₂))
    (h₂ : lookupA reg₂.registry program = some (l₁ ++ l₂))
    (hne : l₁ ++ l₂ ≠ []) (hreq : s.required = false)
    (hfail : ∀ args, s.parser args = .error .matchNotFound) :
    ∀ (entries : List (FileType × Content)) (dc : DataCollector),
      sameOutcome
        (processEntries program ct dir stdout inp entries dc reg₁)
        (processEntries program ct dir stdout inp entries dc reg₂) := by
  intro entries
  induction entries with
  | nil => intro dc; simp [processEntries, sameOutcome]
  | cons e rest ih =>
      intro dc
      obtain ⟨ft, c⟩ := e
      have hgp₁ := get_parsers_of_lookup reg₁ program (l₁ ++ s :: l₂) ft ct
        h₁ (by simp)
      have hgp₂ := get_parsers_of_lookup reg₂ program (l₁ ++ l₂) ft ct
        h₂ hne
      have hrun : ∀ dcx,
          runSpecs (((l₁ ++ s :: l₂).filter
              (fun ps => decide (ps.filetype = ft))).filter
              (fun ps => decide (ct ∈ ps.calctypes))) dcx
            ⟨c, dir, stdout, inp⟩
          = runSpecs (((l₁ ++ l₂).filter
              (fun ps => decide (ps.filetype = ft))).filter
              (fun ps => decide (ct ∈ ps.calctypes))) dcx
            ⟨c, dir, stdout, inp⟩ := by
        intro dcx
        by_cases hpf : (decide (s.filetype = ft) : Bool) = true
        · by_cases hpc : (decide (ct ∈ s.calctypes) : Bool) = true
          · rw [show ((l₁ ++ s :: l₂).filter
                  (fun ps => decide (ps.filetype = ft))).filter
                  (fun ps => decide (ct ∈ ps.calctypes))
                = ((l₁.filter (fun ps => decide (ps.filetype = ft))).filter
                    (fun ps => decide (ct ∈ ps.calctypes))) ++ s ::
                  ((l₂.filter (fun ps => decide (ps.filetype = ft))).filter
                    (fun ps => decide (ct ∈ ps.calctypes)))
              from by simp [List.filter_append, List.filter_cons, hpf, hpc]]
            rw [show ((l₁ ++ l₂).filter
                  (fun ps => decide (ps.filetype = ft))).filter
                  (fun ps => decide (ct ∈ ps.calctypes))
                = ((l₁.filter (fun ps => decide (ps.filetype = ft))).filter
                    (fun ps => decide (ct ∈ ps.calctypes))) ++
                  ((l₂.filter (fun ps => decide (ps.filetype = ft))).filter
                    (fun ps => decide (ct ∈ ps.calctypes)))
              from by simp [List.filter_append]]
            exact runSpecs_skip s hreq hfail _ _ dcx _
          · rw [show ((l₁ ++ s :: l₂).filter
                  (fun ps => decide (ps.filetype = ft))).filter
                  (fun ps => decide (ct ∈ ps.calctypes))
                = ((l₁ ++ l₂).filter
                  (fun ps => decide (ps.filetype = ft))).filter
                  (fun ps => decide (ct ∈ ps.calctypes))
              from by simp [List.filter_append, List.filter_cons, hpf, hpc]]
        · rw [show ((l₁ ++ s :: l₂).filter
                (fun ps => decide (ps.filetype = ft))).filter
                (fun ps => decide (ct ∈ ps.calctypes))
              = ((l₁ ++ l₂).filter
                (fun ps => decide (ps.filetype = ft))).filter
                (fun ps => decide (ct ∈ ps.calctypes))
            from by simp [List.filter_append, List.filter_cons, hpf]]
      simp only [processEntries, hgp₁, hgp₂, hrun dc]
      cases hr : runSpecs (((l₁ ++ l₂).filter
          (fun ps => decide (ps.filetype = ft))).filter
          (fun ps => decide (ct ∈ ps.calctypes))) dc
          ⟨c, dir, stdout, inp⟩ with
      | error e₂ => simp [sameOutcome]
      | ok dcm => exact ih dcm

/-- C6: an extraction function whose spec has `required=false` and which
raises the NoMatch signal is recovered fully locally: its per-spec step
returns the collector unchanged (nothing is written at its target), and the
whole decode call behaves exactly as if the spec had never been registered
— in particular it still succeeds whenever the remaining pipeline does, and
its raw-mapping result cannot contain anything the failing spec would have
written, its target path included. -/
theorem C6_theorem
    (iterF : Option String → Option DirSnapshot → IterResult)
    (reg₁ reg₂ : ParserRegistry) (program : String) (calctype : CalcType)
    (stdout : Option String) (directory : Option DirSnapshot)
    (input_data : Option Nat) (as_dict : Bool) (s : ParserSpec)
    (l₁ l₂ : List ParserSpec)
    (h₁ : lookupA reg₁.registry program = some (l₁ ++ s :: l₂))
    (h₂ : lookupA reg₂.registry program = some (l₁ ++ l₂))
    (hne : l₁ ++ l₂ ≠ []) (hreq : s.required = false)
    (hfail : ∀ args, s.parser args = .error .matchNotFound) :
    (∀ dc ctx, runSpec dc s ctx = .ok dc) ∧
    decode (some iterF) reg₁ program calctype stdout directory input_data
        as_dict
      = decode (some iterF) reg₂ program calctype stdout directory
        input_data as_dict := by
  refine ⟨fun dc ctx => runSpec_skip s hreq hfail dc ctx, ?_⟩
  have hrel := processEntries_equiv program calctype directory stdout
    input_data s l₁ l₂ reg₁ reg₂ h₁ h₂ hne hreq hfail
    (iterF stdout directory).entries []
  simp only [decode]
  by_cases hguard : (!truthyS stdout && !directory.isSome) = true
  · simp only [if_pos hguard]
  · simp only [if_neg hguard]
    cases hp₁ : processEntries program calctype directory stdout input_data
        (iterF stdout directory).entries [] reg₁ with
    | error e =>
        cases hp₂ : processEntries program calctype directory stdout
            input_data (iterF stdout directory).entries [] reg₂ with
        | error e₂ =>
            rw [hp₁, hp₂] at hrel
            simp only [sameOutcome] at hrel
            rw [hrel]
        | ok pr =>
            rw [hp₁, hp₂] at hrel
            obtain ⟨d₂, r₂⟩ := pr
            simp [sameOutcome] at hrel
    | ok pr =>
        obtain ⟨dcr, regr⟩ := pr
        cases hp₂ : processEntries program calctype directory stdout
            input_data (iterF stdout directory).entries [] reg₂ with
        | error e₂ =>
            rw [hp₁, hp₂] at hrel
            simp [sameOutcome] at hrel
        | ok pr₂ =>
            obtain ⟨dcr₂, regr₂⟩ := pr₂
            rw [hp₁, hp₂] at hrel
            simp only [sameOutcome] at hrel
            subst hrel
            rfl

/-- C6, witness: a required energy spec plus an optional never-matching
`("extras", "version")` spec; decode with both equals decode with the
optional spec absent, and it succeeds with the raw mapping holding only
`energy` — the optional target path is absent. -/
theorem C6_witness :
    decode (some (fun _ _ => ⟨[(.stdout, .text "S")], false⟩))
        ⟨[("prog",
          [⟨fun _ => .ok (.leaf 5), .stdout, true, [.energy], "prog",
            some (.str "energy")⟩,
           ⟨fun _ => .error .matchNotFound, .stdout, false, [.energy],
            "prog", some (.tup ["extras", "version"])⟩])]⟩
        "prog" .energy (some "S") none none true
      = decode (some (fun _ _ => ⟨[(.stdout, .text "S")], false⟩))
        ⟨[("prog",
          [⟨fun _ => .ok (.leaf 5), .stdout, true, [.energy], "prog",
            some (.str "energy")⟩])]⟩
        "prog" .energy (some "S") none none true
    ∧ decode (some (fun _ _ => ⟨[(.stdout, .text "S")], false⟩))
        ⟨[("prog",
          [⟨fun _ => .ok (.leaf 5), .stdout, true, [.energy], "prog",
            some (.str "energy")⟩,
           ⟨fun _ => .error .matchNotFound, .stdout, false, [.energy],
            "prog", some (.tup ["extras", "version"])⟩])]⟩
        "prog" .energy (some "S") none none true
      = .ok (.raw [("energy", .leaf 5)]) := by
  constructor
  · exact (C6_theorem (fun _ _ => ⟨[(.stdout, .text "S")], false⟩)
      ⟨[("prog",
        [⟨fun _ => .ok (.leaf 5), .stdout, true, [.energy], "prog",
          some (.str "energy")⟩,
         ⟨fun _ => .error .matchNotFound, .stdout, false, [.energy],
          "prog", some (.tup ["extras", "version"])⟩])]⟩
      ⟨[("prog",
        [⟨fun _ => .ok (.leaf 5), .stdout, true, [.energy], "prog",
          some (.str "energy")⟩])]⟩
      "prog" .energy (some "S") none none true
      ⟨fun _ => .error .matchNotFound, .stdout, false, [.energy], "prog",
        some (.tup ["extras", "version"])⟩
      [⟨fun _ => .ok (.leaf 5), .stdout, true, [.energy], "prog",
        some (.str "energy")⟩] []
      rfl rfl (by simp) rfl (fun _ => rfl)).2
  · rfl

end Qccodec
